import Mathlib

/-
  Verification development for the evolving-video generator
  (src/pythonimp.py, class EvolvingVideoCreator).

  Shallow embedding conventions:
  * A pixel buffer is a total function `row → col → channel → ℝ`; the code's
    numpy float32 arithmetic is modelled by exact real arithmetic.  The
    buffer produced by `cv2.resize(img, output_size)` with
    `output_size = (w, h)` has numpy shape `(h, w, 3)`: its row axis has
    size `output_size.2` and its column (width) axis has size
    `output_size.1`; column slices `[:, a:b]` act on the width axis.
    Statements about a buffer only quantify over in-range indices.
  * Machine integers are ℕ; Python `int(x)` on the non-negative floats that
    occur here is `⌊x⌋`, and for the expressions below the float value is an
    exact rational, so `int((i / T) * H) = i * H / T` in ℕ.
  * The saved uint8 frame `(buf * 255).astype(np.uint8)` is modelled as
    `fun r c k => ⌊buf r c k * 255⌋` (truncation toward zero agrees with
    floor on the non-negative samples that occur).
  * `np.random.normal(0, strength, shape)` is modelled by an injected
    standard-noise buffer `z` scaled by `strength` (a draw from
    N(0, σ) is σ · N(0, 1); at σ = 0 the draw is exactly 0).  A run takes a
    sequence `zs : ℕ → Buf` of per-step noise draws.
-/

/-- A pixel buffer: row → column → channel → sample. -/
def Buf : Type := ℕ → ℕ → ℕ → ℝ

/-- A saved (uint8-quantized) frame: row → column → channel → integer sample. -/
def QFrame : Type := ℕ → ℕ → ℕ → ℤ

/-- The resized source image, uint8 samples (each intended in [0, 255]). -/
def Img : Type := ℕ → ℕ → ℕ → ℕ

/-- The run parameters of `EvolvingVideoCreator`: the attributes `fps`,
`duration`, `evolution_strength`, `output_size` read by
`create_evolving_video`.  `output_size` is a `(width, height)` pair as
passed to `cv2.resize` (the source fixes it to `(512, 512)`). -/
structure Params where
  fps : ℕ
  duration : ℚ
  strength : ℝ
  outputSize : ℕ × ℕ

/-- `total_frames = int(self.fps * self.duration)` (line 24). -/
def total_frames (p : Params) : ℕ := (⌊(p.fps : ℚ) * p.duration⌋).toNat

/-- `overwrite_position = int((i / total_frames) * self.output_size[1])`
(line 36): exact value `⌊i * output_size[1] / T⌋`. -/
def overwrite_position (T i : ℕ) (os : ℕ × ℕ) : ℕ := i * os.2 / T

/-- `overwrite_width = max(1, int(self.output_size[1] / total_frames * 2))`
(line 37): exact value `max 1 ⌊2 * output_size[1] / T⌋`. -/
def overwrite_width (T : ℕ) (os : ℕ × ℕ) : ℕ := max 1 (2 * os.2 / T)

/-- Column membership in the overwrite region of step `i` (lines 40-48),
for columns `c` of the buffer (i.e. `c < os.1`):
wrap-around branch when `overwrite_position + overwrite_width >
output_size[1]`, replacing `[:, overwrite_position:]` and `[:, :overflow]`;
otherwise the contiguous slice
`[:, overwrite_position : overwrite_position + overwrite_width]`. -/
def inOverwriteRegion (os : ℕ × ℕ) (T i c : ℕ) : Bool :=
  let pos := overwrite_position T i os
  let wid := overwrite_width T os
  if os.2 < pos + wid then
    decide (pos ≤ c) || decide (c < pos + wid - os.2)
  else
    decide (pos ≤ c) && decide (c < pos + wid)

/-- The merge of lines 40-48: columns in the overwrite region take the
evolved buffer's samples, all other columns keep the current buffer's. -/
def overwrite_merge (os : ℕ × ℕ) (T i : ℕ) (cur ev : Buf) : Buf :=
  fun r c k => if inOverwriteRegion os T i c then ev r c k else cur r c k

/-- numpy float modulo: `x % y = x - y * ⌊x / y⌋` (result has the sign of
`y`), used by line 77. -/
noncomputable def fmod (x y : ℝ) : ℝ := x - y * ⌊x / y⌋

/-- `np.clip(x, 0, 1) = min(1, max(0, x))` (lines 80, 87). -/
noncomputable def clip01 (x : ℝ) : ℝ := min 1 (max 0 x)

/-- `cv2.cvtColor(·, cv2.COLOR_RGB2HSV)` on a float pixel, exact-real model
of the OpenCV formula (the FLT_EPSILON guards of the C implementation are
modelled as exact zero-tests): `V = max(R,G,B)`, `S = (V - min)/V` (0 when
`V = 0`), and `H ∈ [0, 360)` computed from the maximal channel.  For float
images the OpenCV hue period is 360, not the 8-bit 180 convention. -/
noncomputable def RGB2HSV (px : ℝ × ℝ × ℝ) : ℝ × ℝ × ℝ :=
  let r := px.1; let g := px.2.1; let b := px.2.2
  let v := max r (max g b)
  let mn := min r (min g b)
  let d := v - mn
  let s := if v = 0 then 0 else d / v
  let h0 : ℝ :=
    if d = 0 then 0
    else if v = r then 60 * (g - b) / d
    else if v = g then 120 + 60 * (b - r) / d
    else 240 + 60 * (r - g) / d
  let h := if h0 < 0 then h0 + 360 else h0
  (h, s, v)

/-- `cv2.cvtColor(·, cv2.COLOR_HSV2RGB)` on a float pixel (hue in degrees):
sector `⌊h/60⌋ mod 6`, fractional part `f`, chroma values `p q t`. -/
noncomputable def HSV2RGB (px : ℝ × ℝ × ℝ) : ℝ × ℝ × ℝ :=
  let h := px.1; let s := px.2.1; let v := px.2.2
  let hs := h / 60
  let f := hs - ⌊hs⌋
  let sector : ℤ := ⌊hs⌋ % 6
  let pv := v * (1 - s)
  let qv := v * (1 - s * f)
  let tv := v * (1 - s * (1 - f))
  if sector = 0 then (v, tv, pv)
  else if sector = 1 then (qv, v, pv)
  else if sector = 2 then (pv, v, tv)
  else if sector = 3 then (pv, qv, v)
  else if sector = 4 then (tv, pv, v)
  else (v, pv, qv)

/-- Line 77: `hsv[:, :, 0] = (hsv[:, :, 0] + hue_shift * 180) % 180`. -/
noncomputable def hueUpdate (shift h : ℝ) : ℝ := fmod (h + shift * 180) 180

/-- Hue update as the specification words it: `(hue + hueShift * hueRange) mod
hueRange` with `hueRange = 360`, the hue period of the float HSV color model
the buffer is represented in at that point.  Stated for comparison with the
source's `hueUpdate`. -/
noncomputable def specHueUpdate (shift h : ℝ) : ℝ := fmod (h + shift * 360) 360

/-- Lines 74-83 on one pixel: convert to HSV, shift hue, scale-and-clip
saturation, convert back to RGB. -/
noncomputable def colorShiftPixel (hueShift satFactor : ℝ) (px : ℝ × ℝ × ℝ) :
    ℝ × ℝ × ℝ :=
  let hsv := RGB2HSV px
  HSV2RGB (hueUpdate hueShift hsv.1, clip01 (hsv.2.1 * satFactor), hsv.2.2)

/-- Lines 74-83 on the whole buffer. -/
noncomputable def colorShift (hueShift satFactor : ℝ) (f : Buf) : Buf :=
  fun r c k =>
    let px := colorShiftPixel hueShift satFactor (f r c 0, f r c 1, f r c 2)
    if k = 0 then px.1 else if k = 1 then px.2.1 else px.2.2

/-- `cv2.borderInterpolate(p, len, BORDER_REFLECT_101)` for the offsets ±1
used by a 3×3 kernel (a length-1 axis maps everything to 0). -/
def reflect101 (len : ℕ) (p : ℤ) : ℕ :=
  if len ≤ 1 then 0
  else if p < 0 then (-p).toNat
  else if p ≥ len then (2 * (len : ℤ) - 2 - p).toNat
  else p.toNat

/-- `cv2.GaussianBlur(f, (3, 3), 0)` (line 90).  With `sigma = 0` and
`ksize = 3`, OpenCV uses its fixed small-Gaussian kernel `[1/4, 1/2, 1/4]`,
so the blur is the exact separable 3×3 convolution below, with
BORDER_REFLECT_101 handling at the edges of the `(H, W)` image. -/
noncomputable def gaussianBlur3 (H W : ℕ) (f : Buf) : Buf :=
  fun r c k =>
    (1/16) * f (reflect101 H ((r : ℤ) - 1)) (reflect101 W ((c : ℤ) - 1)) k
    + (1/8) * f (reflect101 H ((r : ℤ) - 1)) (reflect101 W (c : ℤ)) k
    + (1/16) * f (reflect101 H ((r : ℤ) - 1)) (reflect101 W ((c : ℤ) + 1)) k
    + (1/8) * f (reflect101 H (r : ℤ)) (reflect101 W ((c : ℤ) - 1)) k
    + (1/4) * f (reflect101 H (r : ℤ)) (reflect101 W (c : ℤ)) k
    + (1/8) * f (reflect101 H (r : ℤ)) (reflect101 W ((c : ℤ) + 1)) k
    + (1/16) * f (reflect101 H ((r : ℤ) + 1)) (reflect101 W ((c : ℤ) - 1)) k
    + (1/8) * f (reflect101 H ((r : ℤ) + 1)) (reflect101 W (c : ℤ)) k
    + (1/16) * f (reflect101 H ((r : ℤ) + 1)) (reflect101 W ((c : ℤ) + 1)) k

/-- `evolve_frame(frame, progress)` (lines 65-92) on an `(H, W)` buffer:
color shift with `hue_shift = sin(progress * 2 * π) * 0.1` and
`saturation_factor = 1 + sin(progress * 3 * π) * 0.1`, then addition of the
noise draw `strength * z` followed by `np.clip(·, 0, 1)`, then the 3×3
Gaussian blur. -/
noncomputable def evolve_frame (H W : ℕ) (frame : Buf) (progress strength : ℝ)
    (z : Buf) : Buf :=
  let hueShift := Real.sin (progress * 2 * Real.pi) * 0.1
  let satFactor := 1 + Real.sin (progress * 3 * Real.pi) * 0.1
  let shifted := colorShift hueShift satFactor frame
  let noised : Buf := fun r c k => clip01 (shifted r c k + strength * z r c k)
  gaussianBlur3 H W noised

/-- Line 28: `current_frame = img.astype(np.float32) / 255.0`. -/
noncomputable def initBuf (img : Img) : Buf := fun r c k => (img r c k : ℝ) / 255

/-- One iteration of the loop body (lines 31-48) on the persistent buffer:
evolve the current buffer at progress `i / total_frames`, then merge the
overwrite region.  The blur inside `evolve_frame` sees the resized shape
`(output_size[1], output_size[0])` = (rows, cols). -/
noncomputable def stepBuf (p : Params) (T i : ℕ) (z : Buf) (cur : Buf) : Buf :=
  overwrite_merge p.outputSize T i cur
    (evolve_frame p.outputSize.2 p.outputSize.1 cur ((i : ℝ) / (T : ℝ))
      p.strength z)

/-- The persistent buffer before step `n` (so `bufAt … 0` is the normalized
source image and `bufAt … (n+1)` is the buffer after the merge of step `n`);
the recursion consumes the full-precision float buffer, never the saved
uint8 frames. -/
noncomputable def bufAt (p : Params) (zs : ℕ → Buf) (img : Img) : ℕ → Buf
  | 0 => initBuf img
  | n + 1 => stepBuf p (total_frames p) n (zs n) (bufAt p zs img n)

/-- Line 51: `frame_to_save = (current_frame * 255).astype(np.uint8)`. -/
noncomputable def quantize_frame (b : Buf) : QFrame := fun r c k => ⌊b r c k * 255⌋

/-- The `for i in range(total_frames)` loop (lines 31-52), producing the
`frames` list: `fuel` iterations remain, `i` is the next frame index, `cur`
the persistent buffer. -/
noncomputable def loop_frames (p : Params) (zs : ℕ → Buf) :
    ℕ → ℕ → Buf → List QFrame
  | 0, _, _ => []
  | fuel + 1, i, cur =>
      let b := stepBuf p (total_frames p) i (zs i) cur
      quantize_frame b :: loop_frames p zs fuel (i + 1) b

/-- The frame-generation phase of `create_evolving_video` (lines 24-52):
compute `total_frames`, start from the normalized source image, and run the
loop.  The source performs no validation of `total_frames`; the function is
total and generation always completes. -/
noncomputable def create_frames (p : Params) (zs : ℕ → Buf) (img : Img) :
    List QFrame :=
  loop_frames p zs (total_frames p) 0 (initBuf img)

/-- Line 59: each saved frame is handed to `ImageSequenceClip` with its
channel axis reversed (`frame[:, :, ::-1]`), i.e. channel `k ↦ 2 - k` for
the 3 color channels. -/
def reverse_channels (f : QFrame) : QFrame := fun r c k => f r c (2 - k)

/-- The ordered frame sequence presented to the video assembler (line 59). -/
noncomputable def assembler_frames (p : Params) (zs : ℕ → Buf) (img : Img) :
    List QFrame :=
  (create_frames p zs img).map reverse_channels

/-- The error kind of the specification's §7. -/
inductive ConfigError where
  | invalidConfiguration
deriving DecidableEq

/-- Modelled from the spec: §4.3 "Fails fast (see §7) if `totalFrames < 1`"
together with §7's *InvalidConfiguration* — the validation step the
specification prescribes for the Sequence Driver but that is absent from
`create_evolving_video`.  Stated for comparison with `create_frames`. -/
noncomputable def spec_generate (p : Params) (zs : ℕ → Buf) (img : Img) :
    Except ConfigError (List QFrame) :=
  if total_frames p < 1 then Except.error ConfigError.invalidConfiguration
  else Except.ok (create_frames p zs img)

/-- Overwrite position as claim C4 words it: computed from `W`, "the size of
the buffer's width axis (the axis along which columns are replaced)", which
for the resized buffer is `output_size[0]`.  Stated for comparison with the
source's `overwrite_position`. -/
def claimOverwritePosition (T i : ℕ) (os : ℕ × ℕ) : ℕ := i * os.1 / T

/-- Overwrite width as claim C4 words it, from the width-axis size
`output_size[0]`.  Stated for comparison with the source's
`overwrite_width`. -/
def claimOverwriteWidth (T : ℕ) (os : ℕ × ℕ) : ℕ := max 1 (2 * os.1 / T)

/-- The default parameters of `EvolvingVideoCreator.__init__`:
fps 30, duration 10, strength 0.05, output size 512×512. -/
noncomputable def defaultParams : Params := ⟨30, 10, 0.05, (512, 512)⟩

/-- The invalid scenario of the specification: fps 30, duration 0. -/
noncomputable def invalidParams : Params := ⟨30, 0, 0.05, (512, 512)⟩

/-- An all-zero noise draw. -/
noncomputable def zeroZ : Buf := fun _ _ _ => 0

/-- The all-zero noise sequence. -/
noncomputable def zeroZs : ℕ → Buf := fun _ => zeroZ

/-- A mid-gray uint8 source image. -/
def constImg : Img := fun _ _ _ => 128

/-- The constant mid-gray float buffer. -/
noncomputable def constHalf : Buf := fun _ _ _ => 1 / 2

/-- A grayscale buffer with a single white pixel at row 1, column 1. -/
noncomputable def grayDot : Buf := fun r c _ => if r = 1 ∧ c = 1 then 1 else 0

lemma loop_frames_length (p : Params) (zs : ℕ → Buf) :
    ∀ fuel i cur, (loop_frames p zs fuel i cur).length = fuel := by
  intro fuel
  induction fuel with
  | zero => intro i cur; rfl
  | succ n ih => intro i cur; simpa [loop_frames] using ih (i + 1) _

lemma loop_frames_getElem (p : Params) (zs : ℕ → Buf) (img : Img) :
    ∀ fuel j i, j < fuel →
      (loop_frames p zs fuel i (bufAt p zs img i))[j]?
        = some (quantize_frame (bufAt p zs img (i + j + 1))) := by
  intro fuel
  induction fuel with
  | zero => intro j i h; exact absurd h (Nat.not_lt_zero j)
  | succ n ih =>
    intro j i h
    have hstep : loop_frames p zs (n + 1) i (bufAt p zs img i)
        = quantize_frame (bufAt p zs img (i + 1))
          :: loop_frames p zs n (i + 1) (bufAt p zs img (i + 1)) := rfl
    rw [hstep]
    cases j with
    | zero => rw [List.getElem?_cons_zero]
    | succ m =>
      have hm : m < n := Nat.lt_of_succ_lt_succ h
      have hidx : i + 1 + m + 1 = i + (m + 1) + 1 := by omega
      rw [List.getElem?_cons_succ, ih m (i + 1) hm, hidx]

lemma create_frames_length (p : Params) (zs : ℕ → Buf) (img : Img) :
    (create_frames p zs img).length = total_frames p :=
  loop_frames_length p zs (total_frames p) 0 (initBuf img)

lemma create_frames_getElem (p : Params) (zs : ℕ → Buf) (img : Img) (j : ℕ)
    (hj : j < total_frames p) :
    (create_frames p zs img)[j]? = some (quantize_frame (bufAt p zs img (j + 1))) := by
  have := loop_frames_getElem p zs img (total_frames p) j 0 hj
  simpa [create_frames, bufAt] using this

lemma clip01_nonneg (x : ℝ) : 0 ≤ clip01 x :=
  le_min zero_le_one (le_max_left 0 x)

lemma clip01_le_one (x : ℝ) : clip01 x ≤ 1 := min_le_left 1 _

lemma clip01_of_mem {x : ℝ} (h0 : 0 ≤ x) (h1 : x ≤ 1) : clip01 x = x := by
  unfold clip01
  rw [max_eq_right h0, min_eq_right h1]

lemma gaussianBlur3_mem (H W : ℕ) (f : Buf)
    (hf : ∀ r c k, 0 ≤ f r c k ∧ f r c k ≤ 1) (r c k : ℕ) :
    0 ≤ gaussianBlur3 H W f r c k ∧ gaussianBlur3 H W f r c k ≤ 1 := by
  unfold gaussianBlur3
  constructor <;>
    linarith [hf (reflect101 H ((r : ℤ) - 1)) (reflect101 W ((c : ℤ) - 1)) k,
      hf (reflect101 H ((r : ℤ) - 1)) (reflect101 W (c : ℤ)) k,
      hf (reflect101 H ((r : ℤ) - 1)) (reflect101 W ((c : ℤ) + 1)) k,
      hf (reflect101 H (r : ℤ)) (reflect101 W ((c : ℤ) - 1)) k,
      hf (reflect101 H (r : ℤ)) (reflect101 W (c : ℤ)) k,
      hf (reflect101 H (r : ℤ)) (reflect101 W ((c : ℤ) + 1)) k,
      hf (reflect101 H ((r : ℤ) + 1)) (reflect101 W ((c : ℤ) - 1)) k,
      hf (reflect101 H ((r : ℤ) + 1)) (reflect101 W (c : ℤ)) k,
      hf (reflect101 H ((r : ℤ) + 1)) (reflect101 W ((c : ℤ) + 1)) k]

lemma evolve_frame_mem (H W : ℕ) (frame : Buf) (progress strength : ℝ)
    (z : Buf) (r c k : ℕ) :
    0 ≤ evolve_frame H W frame progress strength z r c k ∧
      evolve_frame H W frame progress strength z r c k ≤ 1 := by
  unfold evolve_frame
  exact gaussianBlur3_mem H W _ (fun r' c' k' => ⟨clip01_nonneg _, clip01_le_one _⟩) r c k

lemma overwrite_merge_mem (os : ℕ × ℕ) (T i : ℕ) (cur ev : Buf)
    (hcur : ∀ r c k, 0 ≤ cur r c k ∧ cur r c k ≤ 1)
    (hev : ∀ r c k, 0 ≤ ev r c k ∧ ev r c k ≤ 1) (r c k : ℕ) :
    0 ≤ overwrite_merge os T i cur ev r c k ∧
      overwrite_merge os T i cur ev r c k ≤ 1 := by
  unfold overwrite_merge
  split
  · exact hev r c k
  · exact hcur r c k

lemma bufAt_mem (p : Params) (zs : ℕ → Buf) (img : Img)
    (himg : ∀ r c k, img r c k ≤ 255) :
    ∀ n r c k, 0 ≤ bufAt p zs img n r c k ∧ bufAt p zs img n r c k ≤ 1 := by
  intro n
  induction n with
  | zero =>
    intro r c k
    unfold bufAt initBuf
    constructor
    · positivity
    · rw [div_le_one (by norm_num)]
      exact_mod_cast le_trans (Nat.cast_le.mpr (himg r c k)) (by norm_num)
  | succ m ih =>
    intro r c k
    unfold bufAt stepBuf
    exact overwrite_merge_mem _ _ _ _ _ ih (evolve_frame_mem _ _ _ _ _ _) r c k

lemma HSV2RGB_mem (h s v : ℝ) (hs0 : 0 ≤ s) (hs1 : s ≤ 1) (hv0 : 0 ≤ v)
    (hv1 : v ≤ 1) :
    0 ≤ (HSV2RGB (h, s, v)).1 ∧ (HSV2RGB (h, s, v)).1 ≤ 1 ∧
      0 ≤ (HSV2RGB (h, s, v)).2.1 ∧ (HSV2RGB (h, s, v)).2.1 ≤ 1 ∧
      0 ≤ (HSV2RGB (h, s, v)).2.2 ∧ (HSV2RGB (h, s, v)).2.2 ≤ 1 := by
  have hf0 : 0 ≤ h / 60 - (⌊h / 60⌋ : ℝ) :=
    sub_nonneg.mpr (Int.floor_le (h / 60))
  have hf1 : h / 60 - (⌊h / 60⌋ : ℝ) ≤ 1 := by
    have := Int.lt_floor_add_one (h / 60)
    linarith
  set f := h / 60 - (⌊h / 60⌋ : ℝ) with hfdef
  have hsf0 : 0 ≤ s * f := mul_nonneg hs0 hf0
  have hsf1 : s * f ≤ 1 := by nlinarith
  have hst0 : 0 ≤ s * (1 - f) := mul_nonneg hs0 (by linarith)
  have hst1 : s * (1 - f) ≤ 1 := by nlinarith
  have hp : 0 ≤ v * (1 - s) ∧ v * (1 - s) ≤ 1 :=
    ⟨mul_nonneg hv0 (by linarith), by nlinarith⟩
  have hq : 0 ≤ v * (1 - s * f) ∧ v * (1 - s * f) ≤ 1 :=
    ⟨mul_nonneg hv0 (by linarith), by nlinarith⟩
  have ht : 0 ≤ v * (1 - s * (1 - f)) ∧ v * (1 - s * (1 - f)) ≤ 1 :=
    ⟨mul_nonneg hv0 (by linarith), by nlinarith⟩
  simp only [HSV2RGB, ← hfdef]
  split_ifs <;> refine ⟨?_, ?_, ?_, ?_, ?_, ?_⟩ <;>
    first
      | exact hv0 | exact hv1 | exact hp.1 | exact hp.2
      | exact hq.1 | exact hq.2 | exact ht.1 | exact ht.2

lemma RGB2HSV_val (px : ℝ × ℝ × ℝ) :
    (RGB2HSV px).2.2 = max px.1 (max px.2.1 px.2.2) := rfl

lemma colorShiftPixel_mem (hueShift satFactor : ℝ) (px : ℝ × ℝ × ℝ)
    (h1 : 0 ≤ px.1 ∧ px.1 ≤ 1) (h2 : 0 ≤ px.2.1 ∧ px.2.1 ≤ 1)
    (h3 : 0 ≤ px.2.2 ∧ px.2.2 ≤ 1) :
    0 ≤ (colorShiftPixel hueShift satFactor px).1 ∧
      (colorShiftPixel hueShift satFactor px).1 ≤ 1 ∧
      0 ≤ (colorShiftPixel hueShift satFactor px).2.1 ∧
      (colorShiftPixel hueShift satFactor px).2.1 ≤ 1 ∧
      0 ≤ (colorShiftPixel hueShift satFactor px).2.2 ∧
      (colorShiftPixel hueShift satFactor px).2.2 ≤ 1 := by
  have hv0 : 0 ≤ (RGB2HSV px).2.2 := by
    rw [RGB2HSV_val]
    exact le_trans h1.1 (le_max_left _ _)
  have hv1 : (RGB2HSV px).2.2 ≤ 1 := by
    rw [RGB2HSV_val]
    exact max_le h1.2 (max_le h2.2 h3.2)
  unfold colorShiftPixel
  exact HSV2RGB_mem _ _ _ (clip01_nonneg _) (clip01_le_one _) hv0 hv1

lemma clip01_zero : clip01 0 = 0 := by unfold clip01; norm_num

lemma fmod_mem (x y : ℝ) (hy : 0 < y) : 0 ≤ fmod x y ∧ fmod x y < y := by
  unfold fmod
  have h0 : (⌊x / y⌋ : ℝ) * y ≤ x := (le_div_iff₀ hy).mp (Int.floor_le (x / y))
  have h1 : x < ((⌊x / y⌋ : ℝ) + 1) * y := (div_lt_iff₀ hy).mp (Int.lt_floor_add_one (x / y))
  constructor <;> nlinarith

lemma RGB2HSV_gray (c : ℝ) : RGB2HSV (c, c, c) = (0, 0, c) := by
  simp [RGB2HSV, max_self, min_self, sub_self, zero_div]

lemma HSV2RGB_sat0 (h v : ℝ) : HSV2RGB (h, 0, v) = (v, v, v) := by
  simp only [HSV2RGB]
  split_ifs <;> norm_num

lemma colorShiftPixel_gray (hs sf c : ℝ) :
    colorShiftPixel hs sf (c, c, c) = (c, c, c) := by
  unfold colorShiftPixel
  rw [RGB2HSV_gray]
  show HSV2RGB (hueUpdate hs 0, clip01 (0 * sf), c) = (c, c, c)
  rw [zero_mul, clip01_zero, HSV2RGB_sat0]

lemma colorShift_mem (hueShift satFactor : ℝ) (f : Buf)
    (hf : ∀ r c k, 0 ≤ f r c k ∧ f r c k ≤ 1) (r c k : ℕ) :
    0 ≤ colorShift hueShift satFactor f r c k ∧
      colorShift hueShift satFactor f r c k ≤ 1 := by
  have hmem := colorShiftPixel_mem hueShift satFactor (f r c 0, f r c 1, f r c 2)
    (hf r c 0) (hf r c 1) (hf r c 2)
  unfold colorShift
  split_ifs <;>
    first
      | exact ⟨hmem.1, hmem.2.1⟩
      | exact ⟨hmem.2.2.1, hmem.2.2.2.1⟩
      | exact ⟨hmem.2.2.2.2.1, hmem.2.2.2.2.2⟩

/-- With `strength = 0` the noise draw `np.random.normal(0, 0, shape)` is
identically zero and the subsequent `np.clip` is the identity on the
in-range color-shifted samples, so `evolve_frame` at strength 0 is exactly
the blur of the color-shifted buffer. -/
lemma evolve_frame_strength_zero (H W : ℕ) (frame : Buf) (progress : ℝ)
    (z : Buf) (hf : ∀ r c k, 0 ≤ frame r c k ∧ frame r c k ≤ 1) :
    evolve_frame H W frame progress 0 z
      = gaussianBlur3 H W
          (colorShift (Real.sin (progress * 2 * Real.pi) * 0.1)
            (1 + Real.sin (progress * 3 * Real.pi) * 0.1) frame) := by
  have hfun :
      (fun r c k => clip01
        (colorShift (Real.sin (progress * 2 * Real.pi) * 0.1)
            (1 + Real.sin (progress * 3 * Real.pi) * 0.1) frame r c k
          + (0 : ℝ) * z r c k))
        = colorShift (Real.sin (progress * 2 * Real.pi) * 0.1)
            (1 + Real.sin (progress * 3 * Real.pi) * 0.1) frame := by
    funext r c k
    rw [zero_mul, add_zero]
    exact clip01_of_mem (colorShift_mem _ _ frame hf r c k).1
      (colorShift_mem _ _ frame hf r c k).2
  show gaussianBlur3 H W
      (fun r c k => clip01
        (colorShift (Real.sin (progress * 2 * Real.pi) * 0.1)
            (1 + Real.sin (progress * 3 * Real.pi) * 0.1) frame r c k
          + (0 : ℝ) * z r c k)) = _
  rw [hfun]

/-- Coverage argument: the step `i0 = ((c+1)·T - 1) / W` has its overwrite
region containing column `c`. -/
lemma column_covered (W T c : ℕ) (hW : 1 ≤ W) (hT : 1 ≤ T) (hc : c < W) :
    ∃ i, i < T ∧ inOverwriteRegion (W, W) T i c = true := by
  have hprod : 1 ≤ (c + 1) * T := Nat.mul_pos (by omega) hT
  set a := (c + 1) * T - 1 with ha
  have haeq : a + 1 = (c + 1) * T := by omega
  set i0 := a / W with hi0
  have hdm : W * (a / W) + a % W = a := Nat.div_add_mod a W
  have hml : a % W < W := Nat.mod_lt _ (by omega)
  have h1 : W * i0 ≤ a := by rw [hi0]; omega
  have h2 : a < W * i0 + W := by rw [hi0]; omega
  have haT : (c + 1) * T ≤ W * T := Nat.mul_le_mul_right T (by omega)
  have hiT : i0 < T := by
    by_contra hcon
    push_neg at hcon
    have : W * T ≤ W * i0 := Nat.mul_le_mul_left W hcon
    omega
  set pos := overwrite_position T i0 (W, W) with hposd
  have hpose : pos = i0 * W / T := rfl
  have hdm2 : T * (i0 * W / T) + i0 * W % T = i0 * W := Nat.div_add_mod (i0 * W) T
  have hml2 : i0 * W % T < T := Nat.mod_lt _ (by omega)
  have hiW : i0 * W = W * i0 := Nat.mul_comm i0 W
  have h3 : T * pos ≤ W * i0 := by rw [hpose]; omega
  have h4 : W * i0 < T * pos + T := by rw [hpose]; omega
  have hposc : pos ≤ c := by
    have hTc : T * pos < T * (c + 1) := by
      have : (c + 1) * T = T * (c + 1) := Nat.mul_comm _ _
      omega
    have := Nat.lt_of_mul_lt_mul_left hTc
    omega
  set wid := overwrite_width T (W, W) with hwidd
  have hwide : wid = max 1 (2 * W / T) := rfl
  have hwid1 : 1 ≤ wid := by rw [hwide]; exact Nat.le_max_left _ _
  have hcpw : c < pos + wid := by
    rcases Nat.eq_or_lt_of_le hposc with hd0 | hdpos
    · omega
    · -- d := c - pos ≥ 1
      set d := c - pos with hd
      have hcd : c = pos + d := by omega
      have hd1 : 1 ≤ d := by omega
      have e1 : (c + 1) * T = T * pos + T * d + T := by
        rw [hcd]; ring
      have hTdW : T * d < W := by omega
      have hTd : T * 1 ≤ T * d := Nat.mul_le_mul_left T hd1
      have e2 : (d + 1) * T = T * d + T := by ring
      have hle : (d + 1) * T ≤ 2 * W := by omega
      have hdiv : d + 1 ≤ 2 * W / T :=
        (Nat.le_div_iff_mul_le (by omega)).mpr hle
      have hmax : 2 * W / T ≤ max 1 (2 * W / T) := Nat.le_max_right _ _
      rw [hwide]
      omega
  refine ⟨i0, hiT, ?_⟩
  simp only [inOverwriteRegion, ← hposd, ← hwidd]
  by_cases hbr : (W, W).2 < pos + wid
  · rw [if_pos hbr]
    simp only [Bool.or_eq_true, decide_eq_true_eq]
    exact Or.inl hposc
  · rw [if_neg hbr]
    simp only [Bool.and_eq_true, decide_eq_true_eq]
    exact ⟨hposc, hcpw⟩

lemma loop_frames_congr (p : Params) (zs₁ zs₂ : ℕ → Buf) :
    ∀ fuel i cur, (∀ j, i ≤ j → j < i + fuel → zs₁ j = zs₂ j) →
      loop_frames p zs₁ fuel i cur = loop_frames p zs₂ fuel i cur := by
  intro fuel
  induction fuel with
  | zero => intro i cur _; rfl
  | succ n ih =>
    intro i cur h
    have hz : zs₁ i = zs₂ i := h i (le_refl i) (by omega)
    show quantize_frame (stepBuf p (total_frames p) i (zs₁ i) cur)
        :: loop_frames p zs₁ n (i + 1) (stepBuf p (total_frames p) i (zs₁ i) cur)
      = quantize_frame (stepBuf p (total_frames p) i (zs₂ i) cur)
        :: loop_frames p zs₂ n (i + 1) (stepBuf p (total_frames p) i (zs₂ i) cur)
    rw [hz, ih (i + 1) _ (fun j h1 h2 => h j (by omega) (by omega))]

lemma colorShift_graylike (hs sf : ℝ) (g : Buf)
    (hg : ∀ r c k, g r c k = g r c 0) : colorShift hs sf g = g := by
  funext r c k
  simp only [colorShift]
  rw [hg r c 1, hg r c 2, colorShiftPixel_gray]
  split_ifs <;> exact (hg r c k).symm

lemma gaussianBlur3_constHalf (H W : ℕ) : gaussianBlur3 H W constHalf = constHalf := by
  funext r c k
  show gaussianBlur3 H W constHalf r c k = constHalf r c k
  norm_num [gaussianBlur3, constHalf]

lemma evolve_constHalf (z : Buf) (progress : ℝ) :
    evolve_frame 3 3 constHalf progress 0 z = constHalf := by
  rw [evolve_frame_strength_zero 3 3 constHalf progress z
    (fun r c k => by constructor <;> norm_num [constHalf])]
  rw [colorShift_graylike _ _ constHalf (fun r c k => rfl)]
  exact gaussianBlur3_constHalf 3 3

lemma evolve_grayDot_center :
    evolve_frame 3 3 grayDot 0 0 zeroZ 1 1 0 = 1 / 4 := by
  have hmem : ∀ r c k, 0 ≤ grayDot r c k ∧ grayDot r c k ≤ 1 := by
    intro r c k
    unfold grayDot
    split_ifs <;> norm_num
  rw [evolve_frame_strength_zero 3 3 grayDot 0 zeroZ hmem]
  rw [colorShift_graylike _ _ grayDot (fun r c k => rfl)]
  norm_num [gaussianBlur3, grayDot, reflect101]
  simp only [show Int.toNat 2 = 2 from rfl]
  norm_num

lemma total_frames_default : total_frames defaultParams = 300 := by
  norm_num [total_frames, defaultParams]
  decide

lemma total_frames_invalid : total_frames invalidParams = 0 := by
  norm_num [total_frames, invalidParams]

lemma RGB2HSV_bluish : RGB2HSV (0, 1/2, 1) = (210, 1, 1) := by
  norm_num [RGB2HSV, max_def, min_def]

/-- C1.  For every frameIndex `i < totalFrames` of a run whose (square)
output size makes the wrap-around branch fire
(`overwritePosition + overwriteWidth > W`), the buffer snapshot emitted by
that step agrees with the evolved buffer on columns `[overwritePosition, W)`
and `[0, overflow)` (`overflow = overwritePosition + overwriteWidth - W`),
agrees with the pre-step persistent buffer on every other column, and is
exactly the persistent buffer taken after the merge (the saved frame being
its quantization). -/
theorem C1_wrap_merge (p : Params) (zs : ℕ → Buf) (img : Img) (W i : ℕ)
    (hos : p.outputSize = (W, W)) (hi : i < total_frames p)
    (hwrap : W < overwrite_position (total_frames p) i p.outputSize
        + overwrite_width (total_frames p) p.outputSize) :
    (∀ r c k, overwrite_position (total_frames p) i p.outputSize ≤ c → c < W →
        bufAt p zs img (i + 1) r c k
          = evolve_frame p.outputSize.2 p.outputSize.1 (bufAt p zs img i)
              ((i : ℝ) / ((total_frames p : ℕ) : ℝ)) p.strength (zs i) r c k) ∧
    (∀ r c k,
        c < overwrite_position (total_frames p) i p.outputSize
            + overwrite_width (total_frames p) p.outputSize - W →
        bufAt p zs img (i + 1) r c k
          = evolve_frame p.outputSize.2 p.outputSize.1 (bufAt p zs img i)
              ((i : ℝ) / ((total_frames p : ℕ) : ℝ)) p.strength (zs i) r c k) ∧
    (∀ r c k, c < W →
        c < overwrite_position (total_frames p) i p.outputSize →
        overwrite_position (total_frames p) i p.outputSize
            + overwrite_width (total_frames p) p.outputSize - W ≤ c →
        bufAt p zs img (i + 1) r c k = bufAt p zs img i r c k) ∧
    bufAt p zs img (i + 1)
      = overwrite_merge p.outputSize (total_frames p) i (bufAt p zs img i)
          (evolve_frame p.outputSize.2 p.outputSize.1 (bufAt p zs img i)
            ((i : ℝ) / ((total_frames p : ℕ) : ℝ)) p.strength (zs i)) ∧
    (create_frames p zs img)[i]?
      = some (quantize_frame (bufAt p zs img (i + 1))) := by
  obtain ⟨fps, dur, st, os⟩ := p
  dsimp only at hos hwrap ⊢
  subst hos
  have hreg : ∀ c, inOverwriteRegion (W, W)
        (total_frames ⟨fps, dur, st, (W, W)⟩) i c
      = (decide (overwrite_position (total_frames ⟨fps, dur, st, (W, W)⟩) i
            (W, W) ≤ c)
        || decide (c < overwrite_position
              (total_frames ⟨fps, dur, st, (W, W)⟩) i (W, W)
            + overwrite_width (total_frames ⟨fps, dur, st, (W, W)⟩) (W, W)
            - W)) := by
    intro c
    simp only [inOverwriteRegion]
    rw [if_pos hwrap]
  have hD : bufAt ⟨fps, dur, st, (W, W)⟩ zs img (i + 1)
      = overwrite_merge (W, W) (total_frames ⟨fps, dur, st, (W, W)⟩) i
          (bufAt ⟨fps, dur, st, (W, W)⟩ zs img i)
          (evolve_frame W W (bufAt ⟨fps, dur, st, (W, W)⟩ zs img i)
            ((i : ℝ) / ((total_frames ⟨fps, dur, st, (W, W)⟩ : ℕ) : ℝ)) st
            (zs i)) := rfl
  refine ⟨?_, ?_, ?_, hD, create_frames_getElem _ zs img i hi⟩
  · intro r c k h1 h2
    rw [hD]
    simp only [overwrite_merge, hreg c]
    simp [h1]
  · intro r c k h1
    rw [hD]
    simp only [overwrite_merge, hreg c]
    simp [h1]
  · intro r c k hcW h1 h2
    rw [hD]
    simp only [overwrite_merge, hreg c]
    have p1 : ¬ (overwrite_position (total_frames ⟨fps, dur, st, (W, W)⟩) i
        (W, W) ≤ c) := by omega
    have p2 : ¬ (c < overwrite_position
          (total_frames ⟨fps, dur, st, (W, W)⟩) i (W, W)
        + overwrite_width (total_frames ⟨fps, dur, st, (W, W)⟩) (W, W)
        - W) := by omega
    simp [p1, p2]

/-- C1 witness: in the default 30 fps, 10 s, 512×512 run, step 299 wraps
(position 510, width 3), and the frame it emits is the quantized post-merge
buffer. -/
theorem C1_witness :
    (create_frames defaultParams zeroZs constImg)[299]?
      = some (quantize_frame (bufAt defaultParams zeroZs constImg 300)) :=
  (C1_wrap_merge defaultParams zeroZs constImg 512 299 rfl
    (by rw [total_frames_default]; omega)
    (by rw [total_frames_default]; decide)).2.2.2.2

/-- C2.  For every run with valid parameters (`totalFrames ≥ 1`, square
size `W ≥ 1`), every column index in `[0, W)` lies inside the overwrite
region (contiguous, or one of the two wrap-around sub-ranges) of at least
one of the `totalFrames` steps. -/
theorem C2_full_coverage (p : Params) (W : ℕ) (hos : p.outputSize = (W, W))
    (hW : 1 ≤ W) (hT : 1 ≤ total_frames p) :
    ∀ c, c < W →
      ∃ i, i < total_frames p ∧
        inOverwriteRegion p.outputSize (total_frames p) i c = true := by
  intro c hc
  rw [hos]
  exact column_covered W (total_frames p) c hW hT hc

/-- C2 witness: in the default 30 fps, 10 s, 512×512 run, column 275 is
overwritten by some step. -/
theorem C2_witness :
    ∃ i, i < total_frames defaultParams ∧
      inOverwriteRegion defaultParams.outputSize (total_frames defaultParams)
        i 275 = true :=
  C2_full_coverage defaultParams 512 rfl (by norm_num)
    (by rw [total_frames_default]; norm_num) 275 (by norm_num)

/-- C3.  For valid parameters (positive fps, positive duration),
`totalFrames = ⌊fps · durationSeconds⌋`, and the generation loop emits
exactly `totalFrames` frames in strictly increasing frame-index order:
the frame at list position `i` is the snapshot produced by step `i`. -/
theorem C3_frame_count (p : Params) (zs : ℕ → Buf) (img : Img)
    (hfps : 0 < p.fps) (hdur : 0 < p.duration) :
    total_frames p = (⌊(p.fps : ℚ) * p.duration⌋).toNat ∧
    (create_frames p zs img).length = total_frames p ∧
    ∀ i, i < total_frames p →
      (create_frames p zs img)[i]?
        = some (quantize_frame (bufAt p zs img (i + 1))) :=
  ⟨rfl, create_frames_length p zs img,
    fun i hi => create_frames_getElem p zs img i hi⟩

/-- C3 witness: the default run emits exactly `total_frames` frames. -/
theorem C3_witness :
    (create_frames defaultParams zeroZs constImg).length
      = total_frames defaultParams :=
  (C3_frame_count defaultParams zeroZs constImg (by norm_num [defaultParams])
    (by norm_num [defaultParams])).2.1

/-- C4 counterexample: with output size `(4, 8)` (width 4, height 8 — the
resized buffer's width axis has size 4) and `totalFrames = 2` (fps 1,
duration 2), step 1 computes `overwrite_position = ⌊(1/2)·8⌋ = 4` and
`overwrite_width = max(1, ⌊8/2·2⌋) = 8`, whereas the claimed formulas over
the width-axis size `W = 4` give `⌊(1/2)·4⌋ = 2` and `max(1, ⌊4/2·2⌋) = 4`:
the code derives both quantities from `output_size[1]`, not from the
width-axis size. -/
theorem C4_counterexample :
    total_frames ⟨1, 2, 0.05, (4, 8)⟩ = 2 ∧
    overwrite_position 2 1 (4, 8) = 4 ∧
    claimOverwritePosition 2 1 (4, 8) = 2 ∧
    overwrite_position 2 1 (4, 8) ≠ claimOverwritePosition 2 1 (4, 8) ∧
    overwrite_width 2 (4, 8) = 8 ∧
    claimOverwriteWidth 2 (4, 8) = 4 ∧
    overwrite_width 2 (4, 8) ≠ claimOverwriteWidth 2 (4, 8) := by
  refine ⟨?_, by decide, by decide, by decide, by decide, by decide, by decide⟩
  norm_num [total_frames]
  decide

/-- C4 (amended).  The step computes
`overwritePosition = ⌊(frameIndex/totalFrames) · output_size[1]⌋` and
`overwriteWidth = max(1, ⌊output_size[1]/totalFrames · 2⌋)` — the height
component of the configured output size, which coincides with the claimed
width-axis formulas exactly when the output size is square (as in the
program's fixed 512×512 configuration); `overwriteWidth ≥ 1` always, and in
the 512×512, fps 30, duration 10 scenario `totalFrames = 300` and frame 0
has position 0, width 3 and no wrap. -/
theorem C4_amended :
    (∀ T i (os : ℕ × ℕ), os.1 = os.2 →
        overwrite_position T i os = claimOverwritePosition T i os ∧
        overwrite_width T os = claimOverwriteWidth T os) ∧
    (∀ T (os : ℕ × ℕ), 1 ≤ overwrite_width T os) ∧
    total_frames defaultParams = 300 ∧
    overwrite_position 300 0 (512, 512) = 0 ∧
    overwrite_width 300 (512, 512) = 3 ∧
    overwrite_position 300 0 (512, 512) + overwrite_width 300 (512, 512)
      ≤ 512 := by
  refine ⟨?_, ?_, total_frames_default, by decide, by decide, by decide⟩
  · intro T i os h
    constructor
    · unfold overwrite_position claimOverwritePosition
      rw [h]
    · unfold overwrite_width claimOverwriteWidth
      rw [h]
  · intro T os
    exact Nat.le_max_left _ _

/-- C4 witness: on a square size the source formulas agree with the claimed
width-axis formulas. -/
theorem C4_witness :
    overwrite_position 7 3 (9, 9) = claimOverwritePosition 7 3 (9, 9) ∧
    overwrite_width 7 (9, 9) = claimOverwriteWidth 7 (9, 9) :=
  C4_amended.1 7 3 (9, 9) rfl

/-- C5.  Started from a buffer with samples in [0, 1] (the normalized uint8
source image), the persistent buffer after every step has all samples in
[0, 1] — the transform clamps after adding noise and the blur and the merge
preserve the domain — and every emitted frame is the quantization of such an
in-range post-merge snapshot. -/
theorem C5_sample_domain (p : Params) (zs : ℕ → Buf) (img : Img)
    (himg : ∀ r c k, img r c k ≤ 255) :
    (∀ n r c k, 0 ≤ bufAt p zs img n r c k ∧ bufAt p zs img n r c k ≤ 1) ∧
    ∀ i, i < total_frames p →
      (create_frames p zs img)[i]?
        = some (quantize_frame (bufAt p zs img (i + 1))) :=
  ⟨bufAt_mem p zs img himg, fun i hi => create_frames_getElem p zs img i hi⟩

/-- C5 witness: a sample of the default run's buffer after 5 steps is in
[0, 1]. -/
theorem C5_witness :
    0 ≤ bufAt defaultParams zeroZs constImg 5 0 0 0 ∧
      bufAt defaultParams zeroZs constImg 5 0 0 0 ≤ 1 :=
  (C5_sample_domain defaultParams zeroZs constImg
    (fun r c k => by norm_num [constImg])).1 5 0 0 0

/-- C6 counterexample: with fps 30 and duration 0 (`totalFrames = 0`) the
frame-generation phase does NOT fail with an InvalidConfiguration error —
the code contains no such validation.  It completes normally with an empty
frame list, which differs from the behavior the specification prescribes
(`spec_generate` returns the InvalidConfiguration error). -/
theorem C6_counterexample :
    create_frames invalidParams zeroZs constImg = [] ∧
    spec_generate invalidParams zeroZs constImg
      = Except.error ConfigError.invalidConfiguration ∧
    Except.ok (create_frames invalidParams zeroZs constImg)
      ≠ spec_generate invalidParams zeroZs constImg := by
  have h1 : create_frames invalidParams zeroZs constImg = [] := by
    unfold create_frames
    rw [total_frames_invalid]
    rfl
  have h2 : spec_generate invalidParams zeroZs constImg
      = Except.error ConfigError.invalidConfiguration := by
    unfold spec_generate
    rw [total_frames_invalid]
    norm_num
  refine ⟨h1, h2, ?_⟩
  rw [h2]
  intro hcontra
  exact Except.noConfusion hcontra

/-- C6 (amended).  If the derived `totalFrames` is zero, the generation
loop runs zero iterations: zero frames are emitted, but no
InvalidConfiguration check exists in the code — generation completes
normally with an empty frame list and proceeds to the external assembler
call (any failure, and the absence of an output file, arises only there). -/
theorem C6_amended (p : Params) (zs : ℕ → Buf) (img : Img)
    (h : total_frames p = 0) : create_frames p zs img = [] := by
  unfold create_frames
  rw [h]
  rfl

/-- C6 witness: the fps 30, duration 0 run emits zero frames. -/
theorem C6_witness : create_frames invalidParams zeroZs constImg = [] :=
  C6_amended invalidParams zeroZs constImg total_frames_invalid

/-- C7 counterexample: the pixel (0, 1/2, 1) has float-HSV hue 210 (the hue
period of the float color model is 360).  At progress 0 the hue shift is 0,
so the claimed update `(hue + hueShift·360) mod 360` leaves the hue at 210,
but the code's update `(hue + hueShift·180) mod 180` (line 77) folds it to
30. -/
theorem C7_counterexample :
    RGB2HSV (0, 1/2, 1) = (210, 1, 1) ∧
    Real.sin ((0 : ℝ) * 2 * Real.pi) * 0.1 = 0 ∧
    hueUpdate (Real.sin ((0 : ℝ) * 2 * Real.pi) * 0.1) 210 = 30 ∧
    specHueUpdate (Real.sin ((0 : ℝ) * 2 * Real.pi) * 0.1) 210 = 210 ∧
    hueUpdate (Real.sin ((0 : ℝ) * 2 * Real.pi) * 0.1) 210
      ≠ specHueUpdate (Real.sin ((0 : ℝ) * 2 * Real.pi) * 0.1) 210 := by
  have hs : Real.sin ((0 : ℝ) * 2 * Real.pi) * 0.1 = 0 := by
    simp
  have h1 : hueUpdate (Real.sin ((0 : ℝ) * 2 * Real.pi) * 0.1) 210 = 30 := by
    rw [hs]
    norm_num [hueUpdate, fmod, Int.floor_eq_iff]
  have h2 : specHueUpdate (Real.sin ((0 : ℝ) * 2 * Real.pi) * 0.1) 210
      = 210 := by
    rw [hs]
    norm_num [specHueUpdate, fmod, Int.floor_eq_iff]
  exact ⟨RGB2HSV_bluish, hs, h1, h2, by rw [h1, h2]; norm_num⟩

/-- C7 (amended).  `hueShift = sin(progress·2π)·0.1` as claimed, but the
new hue of every pixel is `(hue + hueShift·180) mod 180`: the code applies
the 8-bit hue convention (period 180) even though the float buffer's HSV
representation has hue period 360, so hues in [180, 360) are folded; the
results always lie in [0, 180) and hence never leave the model's hue
period. -/
theorem C7_amended (s h : ℝ) :
    hueUpdate s h = h + s * 180 - 180 * ⌊(h + s * 180) / 180⌋ ∧
    0 ≤ hueUpdate s h ∧ hueUpdate s h < 180 :=
  ⟨rfl, (fmod_mem _ _ (by norm_num)).1, (fmod_mem _ _ (by norm_num)).2⟩

/-- C8 counterexample: at strength 0 the transform fixes the constant
mid-gray buffer — saturation 0 makes the hue shift invisible and the blur
of a constant buffer is itself — so the transform does have identity
buffer/progress pairs, contradicting the claim that it is not the identity
on every input buffer. -/
theorem C8_counterexample :
    evolve_frame 3 3 constHalf 0 0 zeroZ = constHalf :=
  evolve_constHalf zeroZ 0

/-- C8 (amended).  With strength 0 the noise step is a no-op: on any
in-range buffer the transform equals the blur of the color-shifted buffer;
the blur still applies, so the transform at strength 0 is not the identity
function (it changes the one-white-pixel grayscale buffer), but it is also
not pointwise non-trivial — constant buffers are fixed points. -/
theorem C8_amended :
    (∀ (H W : ℕ) (frame : Buf) (progress : ℝ) (z : Buf),
        (∀ r c k, 0 ≤ frame r c k ∧ frame r c k ≤ 1) →
        evolve_frame H W frame progress 0 z
          = gaussianBlur3 H W
              (colorShift (Real.sin (progress * 2 * Real.pi) * 0.1)
                (1 + Real.sin (progress * 3 * Real.pi) * 0.1) frame)) ∧
    evolve_frame 3 3 grayDot 0 0 zeroZ 1 1 0 ≠ grayDot 1 1 0 := by
  constructor
  · exact fun H W frame progress z hf =>
      evolve_frame_strength_zero H W frame progress z hf
  · rw [evolve_grayDot_center]
    norm_num [grayDot]

/-- C8 witness: the strength-0 no-op equation instantiated on the constant
mid-gray buffer at progress 1. -/
theorem C8_witness :
    evolve_frame 4 4 constHalf 1 0 zeroZ
      = gaussianBlur3 4 4
          (colorShift (Real.sin ((1 : ℝ) * 2 * Real.pi) * 0.1)
            (1 + Real.sin ((1 : ℝ) * 3 * Real.pi) * 0.1) constHalf) :=
  C8_amended.1 4 4 constHalf 1 zeroZ (fun r c k => by norm_num [constHalf])

/-- C9.  The generation function is a pure function of the source image,
the parameters and the injected noise draws: two runs whose noise sequences
agree on the `totalFrames` consumed steps produce identical frame
sequences, and identical sequences at the assembler boundary. -/
theorem C9_determinism (p : Params) (img : Img) (zs₁ zs₂ : ℕ → Buf)
    (hz : ∀ j, j < total_frames p → zs₁ j = zs₂ j) :
    create_frames p zs₁ img = create_frames p zs₂ img ∧
    assembler_frames p zs₁ img = assembler_frames p zs₂ img := by
  have h : create_frames p zs₁ img = create_frames p zs₂ img :=
    loop_frames_congr p zs₁ zs₂ (total_frames p) 0 (initBuf img)
      (fun j h1 h2 => hz j (by omega))
  refine ⟨h, ?_⟩
  unfold assembler_frames
  rw [h]

/-- C9 witness: two runs of the default configuration with the same (zero)
noise draws produce the same frame list. -/
theorem C9_witness :
    create_frames defaultParams zeroZs constImg
      = create_frames defaultParams (fun _ => zeroZ) constImg :=
  (C9_determinism defaultParams constImg zeroZs (fun _ => zeroZ)
    (fun j hj => rfl)).1

/-- C10.  Each emitted frame is the uint8 quantization
`fun r c k => ⌊sample · 255⌋` of the persistent float buffer's state after
the merge, not an exact copy: the persistent buffer recursion consumes the
full-precision float state, the frames handed onward (and, channel-reversed,
to the video assembler) carry only the truncated values, and the
quantization identifies distinct in-range samples. -/
theorem C10_quantized_frames (p : Params) (zs : ℕ → Buf) (img : Img) (i : ℕ)
    (hi : i < total_frames p) :
    (create_frames p zs img)[i]?
      = some (quantize_frame (bufAt p zs img (i + 1))) ∧
    (∀ b : Buf, ∀ r c k, quantize_frame b r c k = ⌊b r c k * 255⌋) ∧
    bufAt p zs img (i + 1)
      = stepBuf p (total_frames p) i (zs i) (bufAt p zs img i) ∧
    (assembler_frames p zs img)[i]?
      = some (reverse_channels (quantize_frame (bufAt p zs img (i + 1)))) ∧
    (∀ f : QFrame, ∀ r c k, reverse_channels f r c k = f r c (2 - k)) ∧
    ∃ x y : ℝ, 0 ≤ x ∧ x ≤ 1 ∧ 0 ≤ y ∧ y ≤ 1 ∧ x ≠ y ∧
      ⌊x * 255⌋ = ⌊y * 255⌋ := by
  refine ⟨create_frames_getElem p zs img i hi, fun b r c k => rfl, rfl, ?_,
    fun f r c k => rfl, ?_⟩
  · unfold assembler_frames
    rw [List.getElem?_map, create_frames_getElem p zs img i hi]
    rfl
  · refine ⟨0, 1/510, le_refl 0, by norm_num, by norm_num, by norm_num,
      by norm_num, ?_⟩
    have h1 : ⌊(0 : ℝ) * 255⌋ = 0 := by norm_num
    have h2 : ⌊(1/510 : ℝ) * 255⌋ = 0 := by
      norm_num [Int.floor_eq_iff]
    rw [h1, h2]

/-- C10 witness: frame 0 of the default run is the quantization of the
buffer after step 0's merge. -/
theorem C10_witness :
    (create_frames defaultParams zeroZs constImg)[0]?
      = some (quantize_frame (bufAt defaultParams zeroZs constImg 1)) :=
  (C10_quantized_frames defaultParams zeroZs constImg 0
    (by rw [total_frames_default]; omega)).1
